import Mathlib

/-- Size of the 64-bit address space; size_t and uintptr_t arithmetic wraps
modulo this constant. -/
def WORD : Nat := 2 ^ 64

/-- Size in bytes of one machine word (sizeof size_t on the 64-bit targets). -/
def WORDB : Nat := 8

/-- Page protection state of one byte of address space.  PROT_NONE maps to
NoAccess, PROT_READ to ReadOnly, PROT_READ|PROT_WRITE to ReadWrite. -/
inductive Access
  | NoAccess
  | ReadOnly
  | ReadWrite
  deriving DecidableEq, Repr

/-- The four fields of class OSAllocator. -/
structure OSAllocator where
  base : Nat
  reserved_size : Nat
  page_size : Nat
  alignment : Nat
  deriving DecidableEq, Repr

/-- Observable memory state: per-byte access rights and word-addressed memory
(words a is the 64-bit value stored at byte address a). -/
structure Machine where
  access : Nat → Access
  words : Nat → Nat

/-- Oracle for the three OS primitives.  reserveAddr models mmap: given the
requested size it yields the address of the reservation, or none on failure.
protectOk and releaseOk tell whether an mprotect / munmap call succeeds. -/
structure OS where
  reserveAddr : Nat → Option Nat
  protectOk : Nat → Nat → Access → Bool
  releaseOk : Nat → Nat → Bool

/-- One OS primitive call as recorded in an operation trace. -/
inductive Prim
  | reserve (size : Nat) (result : Option Nat)
  | protect (addr size : Nat) (access : Access) (ok : Bool)
  | release (addr size : Nat) (ok : Bool)
  deriving DecidableEq, Repr

/-- Whether a recorded OS primitive call failed. -/
def primFailed : Prim → Bool
  | .reserve _ r => r.isNone
  | .protect _ _ _ ok => !ok
  | .release _ _ ok => !ok

/-- Start address of the window a recorded primitive call acted on. -/
def primStart : Prim → Nat
  | .reserve _ _ => 0
  | .protect a _ _ _ => a
  | .release a _ _ => a

/-- Overwrite the access rights of every byte in the window
[start, start + len). -/
def setAccess (f : Nat → Access) (start len : Nat) (v : Access) : Nat → Access :=
  fun a => if start ≤ a ∧ a < start + len then v else f a

namespace Detail

/-- Detail::align_to from the source:
(data + (align - 1)) AND ~(align - 1) on 64-bit size_t, where for a
power of two align the two-complement mask ~(align - 1) equals
2 ^ 64 - align.  The addition wraps modulo 2 ^ 64 first, as in C. -/
def align_to (data align : Nat) : Nat :=
  ((data + (align - 1)) % WORD) &&& (WORD - align)

end Detail

/-- OSAllocator::OSAllocator.  Mirrors the constructor: round the requested
size up to page granularity; if alignment ≤ page_size a single mmap gives
base directly; otherwise a padded reservation is aligned up with the mask
~(alignment - 1), the front slack is made read-write, the adjustment value
diff is stored in the word immediately preceding the aligned base, the slack
is downgraded to read-only, and the aligned address becomes base.  The
returned option is none exactly when the C code calls abort. -/
def construct (os : OS) (m : Machine) (reserve_size page_size alignment : Nat) :
    Option (OSAllocator × Machine) × List Prim :=
  let aligned_reserve_size := Detail.align_to reserve_size page_size
  if alignment ≤ page_size then
    match os.reserveAddr aligned_reserve_size with
    | none => (none, [Prim.reserve aligned_reserve_size none])
    | some ptr =>
      (some ({ base := ptr, reserved_size := reserve_size,
               page_size := page_size, alignment := alignment },
             { m with access := setAccess m.access ptr aligned_reserve_size Access.NoAccess }),
       [Prim.reserve aligned_reserve_size (some ptr)])
  else
    let padded_reserve_size := aligned_reserve_size + alignment
    match os.reserveAddr padded_reserve_size with
    | none => (none, [Prim.reserve padded_reserve_size none])
    | some addr =>
      let m0 : Machine :=
        { m with access := setAccess m.access addr padded_reserve_size Access.NoAccess }
      let up_aligned_addr := ((addr + alignment) % WORD) &&& (WORD - alignment)
      let diff := up_aligned_addr - addr
      if os.protectOk addr diff Access.ReadWrite then
        let m1 : Machine := { m0 with access := setAccess m0.access addr diff Access.ReadWrite }
        let m2 : Machine :=
          { m1 with words := fun a => if a = up_aligned_addr - WORDB then diff else m1.words a }
        if os.protectOk addr diff Access.ReadOnly then
          let m3 : Machine := { m2 with access := setAccess m2.access addr diff Access.ReadOnly }
          (some ({ base := up_aligned_addr, reserved_size := reserve_size,
                   page_size := page_size, alignment := alignment }, m3),
           [Prim.reserve padded_reserve_size (some addr),
            Prim.protect addr diff Access.ReadWrite true,
            Prim.protect addr diff Access.ReadOnly true])
        else
          (none,
           [Prim.reserve padded_reserve_size (some addr),
            Prim.protect addr diff Access.ReadWrite true,
            Prim.protect addr diff Access.ReadOnly false])
      else
        (none,
         [Prim.reserve padded_reserve_size (some addr),
          Prim.protect addr diff Access.ReadWrite false])

/-- OSAllocator::~OSAllocator.  Recomputes the page-aligned size; when the
alignment fits in a page it releases that many bytes at base, otherwise it
reads the adjustment word immediately preceding base and releases the padded
span starting at base minus that adjustment. -/
def destruct (os : OS) (m : Machine) (A : OSAllocator) : Option Machine × List Prim :=
  let aligned_reserved_size := Detail.align_to A.reserved_size A.page_size
  if A.alignment ≤ A.page_size then
    if os.releaseOk A.base aligned_reserved_size then
      (some { m with access := setAccess m.access A.base aligned_reserved_size Access.NoAccess },
       [Prim.release A.base aligned_reserved_size true])
    else (none, [Prim.release A.base aligned_reserved_size false])
  else
    let padded_reserved_size := aligned_reserved_size + A.alignment
    let adjustment := m.words (A.base - WORDB)
    let base_addr := A.base - adjustment
    if os.releaseOk base_addr padded_reserved_size then
      (some { m with access := setAccess m.access base_addr padded_reserved_size Access.NoAccess },
       [Prim.release base_addr padded_reserved_size true])
    else (none, [Prim.release base_addr padded_reserved_size false])

/-- OSAllocator::map.  Rounds base down and base + size up to page
boundaries and grants read-write access to that window.  The allocator
fields are returned unchanged because the method assigns none of them. -/
def OSAllocator.map (os : OS) (m : Machine) (A : OSAllocator) (size : Nat) :
    Option (OSAllocator × Machine) × List Prim :=
  let base_addr := (A.base % WORD) &&& (WORD - A.page_size)
  let end_addr := Detail.align_to (A.base + size) A.page_size
  if os.protectOk base_addr (end_addr - base_addr) Access.ReadWrite then
    (some (A, { m with access := setAccess m.access base_addr (end_addr - base_addr) Access.ReadWrite }),
     [Prim.protect base_addr (end_addr - base_addr) Access.ReadWrite true])
  else
    (none, [Prim.protect base_addr (end_addr - base_addr) Access.ReadWrite false])

/-- OSAllocator::unmap.  The same page-rounded window computation as map,
with the protection set back to PROT_NONE. -/
def OSAllocator.unmap (os : OS) (m : Machine) (A : OSAllocator) (size : Nat) :
    Option (OSAllocator × Machine) × List Prim :=
  let base_addr := (A.base % WORD) &&& (WORD - A.page_size)
  let end_addr := Detail.align_to (A.base + size) A.page_size
  if os.protectOk base_addr (end_addr - base_addr) Access.NoAccess then
    (some (A, { m with access := setAccess m.access base_addr (end_addr - base_addr) Access.NoAccess }),
     [Prim.protect base_addr (end_addr - base_addr) Access.NoAccess true])
  else
    (none, [Prim.protect base_addr (end_addr - base_addr) Access.NoAccess false])

/-- Run a sequence of map (true) and unmap (false) requests on one
reservation, aborting as soon as one of them aborts. -/
def runOps (os : OS) (A : OSAllocator) : Machine → List (Bool × Nat) → Option Machine
  | m, [] => some m
  | m, (true, s) :: rest =>
    match (OSAllocator.map os m A s).1 with
    | none => none
    | some r => runOps os A r.2 rest
  | m, (false, s) :: rest =>
    match (OSAllocator.unmap os m A s).1 with
    | none => none
    | some r => runOps os A r.2 rest

/-- Modelled from the spec: round_up (x, a) is the least multiple of a that
is at least x, the rounding function the specification text uses. -/
def round_up (x a : Nat) : Nat := a * ((x + a - 1) / a)

/-- Modelled from the spec: the page of address x (page size p) intersects
the byte range [base, base + size). -/
abbrev touchedPage (base size p x : Nat) : Prop :=
  p * (x / p) < base + size ∧ base < p * (x / p) + p

/-- The aligned-up address the over-aligned constructor computes:
(addr + alignment) AND ~(alignment - 1) in 64-bit arithmetic. -/
def upAligned (addr al : Nat) : Nat := ((addr + al) % WORD) &&& (WORD - al)

/-- The adjustment the over-aligned constructor stores. -/
def adjDiff (addr al : Nat) : Nat := upAligned addr al - addr

/-- The window start map and unmap compute: base AND ~(page_size - 1). -/
def winStart (A : OSAllocator) : Nat := (A.base % WORD) &&& (WORD - A.page_size)

/-- The window end map and unmap compute: align_to (base + size, page_size). -/
def winEnd (A : OSAllocator) (s : Nat) : Nat := Detail.align_to (A.base + s) A.page_size

/-- An all-succeeding OS whose reservations land at 65536 (page aligned for
every page size used below) as long as the request fits in 2 ^ 32 bytes. -/
def osA : OS :=
  { reserveAddr := fun s => if s ≤ 2 ^ 32 then some 65536 else none,
    protectOk := fun _ _ _ => true,
    releaseOk := fun _ _ => true }

/-- The initial machine: nothing accessible, all words zero. -/
def m0 : Machine := { access := fun _ => Access.NoAccess, words := fun _ => 0 }

/-- An all-succeeding OS that returns raw address 4 (page aligned for page
size 4 but not aligned to 8) for any reservation fitting in 2 ^ 32 bytes. -/
def osB : OS :=
  { reserveAddr := fun s => if s ≤ 2 ^ 32 then some 4 else none,
    protectOk := fun _ _ _ => true,
    releaseOk := fun _ _ => true }

/-- The allocator produced by construct osB m0 1 4 8. -/
def cexAlloc : OSAllocator := { base := 8, reserved_size := 1, page_size := 4, alignment := 8 }

/-- The machine produced by construct osB m0 1 4 8. -/
def cexMachine : Machine :=
  { access := setAccess (setAccess (setAccess m0.access 4 12 Access.NoAccess)
                4 4 Access.ReadWrite) 4 4 Access.ReadOnly,
    words := fun a => if a = 0 then 4 else m0.words a }

/-- The allocator produced by construct osA m0 1 4 8. -/
def c3Alloc : OSAllocator := { base := 65544, reserved_size := 1, page_size := 4, alignment := 8 }

/-- The machine produced by construct osA m0 1 4 8. -/
def c3Machine : Machine :=
  { access := setAccess (setAccess (setAccess m0.access 65536 12 Access.NoAccess)
                65536 8 Access.ReadWrite) 65536 8 Access.ReadOnly,
    words := fun a => if a = 65536 then 8 else m0.words a }

/-- A reservation of 5 bytes (page_size + 1) with page size 4: it spans two
pages starting at 65536. -/
def c4Alloc : OSAllocator := { base := 65536, reserved_size := 5, page_size := 4, alignment := 0 }

/-- The machine after map osA m0 c4Alloc 5. -/
def c4Machine : Machine := { access := setAccess m0.access 65536 8 Access.ReadWrite, words := m0.words }

/-- The machine after a second map osA on c4Machine. -/
def c5Machine : Machine :=
  { access := setAccess c4Machine.access 65536 8 Access.ReadWrite, words := m0.words }

/-- The machine after unmap osA on the mapped two-page reservation. -/
def c6Machine : Machine :=
  { access := setAccess c4Machine.access 65536 8 Access.NoAccess, words := m0.words }

/-- The machine after map 1 then unmap 1 on the over-aligned reservation
c3Alloc starting from c3Machine. -/
def c9Machine : Machine :=
  { access := setAccess (setAccess c3Machine.access 65544 4 Access.ReadWrite)
      65544 4 Access.NoAccess,
    words := c3Machine.words }

/-- The allocator produced by construct osA m0 1 8 16. -/
def c10Alloc : OSAllocator := { base := 65552, reserved_size := 1, page_size := 8, alignment := 16 }

/-- The machine produced by construct osA m0 1 8 16. -/
def c10Machine : Machine :=
  { access := setAccess (setAccess (setAccess m0.access 65536 24 Access.NoAccess)
      65536 16 Access.ReadWrite) 65536 16 Access.ReadOnly,
    words := fun a => if a = 65544 then 16 else m0.words a }

/-!
Verification of the OSAllocator virtual-memory reservation primitive
(Sources/Foundation/Heap/OSAllocator.h).

The embedding models 64-bit machine addresses and sizes as natural numbers,
with an explicit reduction modulo 2 ^ 64 where the C code can wrap.
The operating system is an oracle (structure OS) supplying the results of
the three OS primitives (mmap / mprotect / munmap).  The observable memory
state is a Machine: a per-byte access map together with word-addressed
memory holding the in-band adjustment value.  Each operation returns its
result (none models the process aborting) together with the trace of OS
primitive calls it issued.
-/

/- ===== Arithmetic bridge lemmas ===== -/

/-- Masking a 64-bit value with 2 ^ 64 - 2 ^ k (the two-complement image of
~(2 ^ k - 1)) clears the k low bits, that is rounds down to a multiple of
2 ^ k. -/
theorem land_mask (x k : Nat) (hk : k ≤ 64) (hx : x < WORD) :
    x &&& (WORD - 2 ^ k) = 2 ^ k * (x / 2 ^ k) := by
  have hmask : WORD - 2 ^ k = (2 ^ (64 - k) - 1) <<< k := by
    rw [Nat.shiftLeft_eq, Nat.sub_mul, one_mul, ← pow_add, Nat.sub_add_cancel hk]
    rfl
  have hrhs : 2 ^ k * (x / 2 ^ k) = (x >>> k) <<< k := by
    rw [Nat.shiftRight_eq_div_pow, Nat.shiftLeft_eq, Nat.mul_comm]
  rw [hmask, hrhs]
  apply Nat.eq_of_testBit_eq
  intro i
  rw [Nat.testBit_land, Nat.testBit_shiftLeft, Nat.testBit_shiftLeft,
      Nat.testBit_shiftRight, Nat.testBit_two_pow_sub_one]
  by_cases hki : k ≤ i
  · by_cases hi : i < 64
    · have h1 : k + (i - k) = i := by omega
      have h2 : i - k < 64 - k := by omega
      simp [ge_iff_le, hki, h1, h2]
    · have hx64 : x.testBit i = false :=
        Nat.testBit_lt_two_pow (Nat.lt_of_lt_of_le hx (Nat.pow_le_pow_right (by omega) (by omega)))
      have h1 : k + (i - k) = i := by omega
      simp [ge_iff_le, hki, h1, hx64]
  · simp [ge_iff_le, hki]

/-- Detail.align_to computes the round-up to the next multiple of a power
of two, provided the addition does not wrap. -/
theorem align_to_eq (x k : Nat) (hk : k ≤ 64) (h : x + 2 ^ k ≤ WORD) :
    Detail.align_to x (2 ^ k) = 2 ^ k * ((x + 2 ^ k - 1) / 2 ^ k) := by
  have hp : 0 < 2 ^ k := Nat.pow_pos (by omega)
  unfold Detail.align_to
  have h1 : x + (2 ^ k - 1) = x + 2 ^ k - 1 := by omega
  rw [h1, Nat.mod_eq_of_lt (by omega)]
  exact land_mask _ k hk (by omega)

/-- The round-up expression is at least x and less than x + p. -/
theorem roundUp_bounds (x p : Nat) (hp : 0 < p) :
    x ≤ p * ((x + p - 1) / p) ∧ p * ((x + p - 1) / p) < x + p := by
  have hdm := Nat.div_add_mod (x + p - 1) p
  have hlt : (x + p - 1) % p < p := Nat.mod_lt _ hp
  omega

/-- The round-up expression is a multiple of p that is minimal among the
multiples of p at least x. -/
theorem roundUp_le_of_dvd (x y p : Nat) (hp : 0 < p) (hd : p ∣ y) (hxy : x ≤ y) :
    p * ((x + p - 1) / p) ≤ y := by
  obtain ⟨c, rfl⟩ := hd
  have h1 : (x + p - 1) / p ≤ (p * c + (p - 1)) / p :=
    Nat.div_le_div_right (by omega)
  have h2 : (p * c + (p - 1)) / p = c + (p - 1) / p := Nat.mul_add_div hp c (p - 1)
  have h3 : (p - 1) / p = 0 := Nat.div_eq_of_lt (by omega)
  have h4 : (x + p - 1) / p ≤ c := by omega
  exact Nat.mul_le_mul_left p h4

/-- Rounding a multiple of p up to a multiple of p does nothing. -/
theorem roundUp_eq_self (x p : Nat) (hp : 0 < p) (hd : p ∣ x) :
    p * ((x + p - 1) / p) = x := by
  have h1 := (roundUp_bounds x p hp).1
  have h2 := roundUp_le_of_dvd x x p hp hd (Nat.le_refl x)
  omega

/-- Rounding down to a multiple of p does nothing on a multiple of p. -/
theorem roundDown_eq_self (x p : Nat) (hp : 0 < p) (hd : p ∣ x) :
    p * (x / p) = x := by
  obtain ⟨c, rfl⟩ := hd
  rw [Nat.mul_div_cancel_left c hp]

/- ===== Abbreviations for the quantities the code computes ===== -/

/- ===== Unfolding lemmas for the operations ===== -/

/-- Shape of a successful construct when the alignment fits in a page. -/
theorem construct_spec_aligned (os : OS) (m : Machine) (rs ps al ptr : Nat)
    (hle : al ≤ ps) (hres : os.reserveAddr (Detail.align_to rs ps) = some ptr) :
    construct os m rs ps al =
      (some ({ base := ptr, reserved_size := rs, page_size := ps, alignment := al },
             { m with access := setAccess m.access ptr (Detail.align_to rs ps) Access.NoAccess }),
       [Prim.reserve (Detail.align_to rs ps) (some ptr)]) := by
  simp [construct, hle, hres]

/-- Shape of a successful construct in the over-aligned branch. -/
theorem construct_spec_over (os : OS) (m : Machine) (rs ps al addr : Nat)
    (hgt : ¬ al ≤ ps)
    (hres : os.reserveAddr (Detail.align_to rs ps + al) = some addr)
    (h1 : os.protectOk addr (adjDiff addr al) Access.ReadWrite = true)
    (h2 : os.protectOk addr (adjDiff addr al) Access.ReadOnly = true) :
    construct os m rs ps al =
      (some ({ base := upAligned addr al, reserved_size := rs,
               page_size := ps, alignment := al },
             { access :=
                 setAccess
                   (setAccess
                     (setAccess m.access addr (Detail.align_to rs ps + al) Access.NoAccess)
                     addr (adjDiff addr al) Access.ReadWrite)
                   addr (adjDiff addr al) Access.ReadOnly,
               words := fun a =>
                 if a = upAligned addr al - WORDB then adjDiff addr al else m.words a }),
       [Prim.reserve (Detail.align_to rs ps + al) (some addr),
        Prim.protect addr (adjDiff addr al) Access.ReadWrite true,
        Prim.protect addr (adjDiff addr al) Access.ReadOnly true]) := by
  simp [construct, hgt, hres, upAligned, adjDiff] at h1 h2 ⊢
  simp [h1, h2]

/-- Shape of a successful map call. -/
theorem map_spec (os : OS) (m : Machine) (A : OSAllocator) (s : Nat)
    (h1 : os.protectOk (winStart A) (winEnd A s - winStart A) Access.ReadWrite = true) :
    OSAllocator.map os m A s =
      (some (A,
             { m with access :=
                 setAccess m.access (winStart A) (winEnd A s - winStart A) Access.ReadWrite }),
       [Prim.protect (winStart A) (winEnd A s - winStart A) Access.ReadWrite true]) := by
  simp [OSAllocator.map, winStart, winEnd] at h1 ⊢
  simp [h1]

/-- Shape of a successful unmap call. -/
theorem unmap_spec (os : OS) (m : Machine) (A : OSAllocator) (s : Nat)
    (h1 : os.protectOk (winStart A) (winEnd A s - winStart A) Access.NoAccess = true) :
    OSAllocator.unmap os m A s =
      (some (A,
             { m with access :=
                 setAccess m.access (winStart A) (winEnd A s - winStart A) Access.NoAccess }),
       [Prim.protect (winStart A) (winEnd A s - winStart A) Access.NoAccess true]) := by
  simp [OSAllocator.unmap, winStart, winEnd] at h1 ⊢
  simp [h1]

/-- Shape of a successful destruct when the alignment fits in a page. -/
theorem destruct_spec_aligned (os : OS) (m : Machine) (A : OSAllocator)
    (hle : A.alignment ≤ A.page_size)
    (h1 : os.releaseOk A.base (Detail.align_to A.reserved_size A.page_size) = true) :
    destruct os m A =
      (some { m with access :=
                       setAccess m.access A.base
                         (Detail.align_to A.reserved_size A.page_size) Access.NoAccess },
       [Prim.release A.base (Detail.align_to A.reserved_size A.page_size) true]) := by
  simp [destruct, hle, h1]

/-- Shape of a successful destruct in the over-aligned branch. -/
theorem destruct_spec_over (os : OS) (m : Machine) (A : OSAllocator)
    (hgt : ¬ A.alignment ≤ A.page_size)
    (h1 : os.releaseOk (A.base - m.words (A.base - WORDB))
            (Detail.align_to A.reserved_size A.page_size + A.alignment) = true) :
    destruct os m A =
      (some { m with access :=
                       setAccess m.access (A.base - m.words (A.base - WORDB))
                         (Detail.align_to A.reserved_size A.page_size + A.alignment)
                         Access.NoAccess },
       [Prim.release (A.base - m.words (A.base - WORDB))
          (Detail.align_to A.reserved_size A.page_size + A.alignment) true]) := by
  simp [destruct, hgt, h1]

/- ===== Arithmetic facts about the computed quantities ===== -/

/-- The aligned-up address as a multiple of the alignment. -/
theorem upAligned_eq (addr k : Nat) (hk : k ≤ 64) (h : addr + 2 ^ k < WORD) :
    upAligned addr (2 ^ k) = 2 ^ k * ((addr + 2 ^ k) / 2 ^ k) := by
  unfold upAligned
  rw [Nat.mod_eq_of_lt h]
  exact land_mask _ k hk h

/-- The aligned-up address lies strictly above addr, at most one alignment
further, and is a multiple of the alignment. -/
theorem upAligned_bounds (addr k : Nat) (hk : k ≤ 64) (h : addr + 2 ^ k < WORD) :
    addr < upAligned addr (2 ^ k) ∧ upAligned addr (2 ^ k) ≤ addr + 2 ^ k ∧
      2 ^ k ∣ upAligned addr (2 ^ k) := by
  rw [upAligned_eq addr k hk h]
  have hp : 0 < 2 ^ k := Nat.pow_pos (by omega)
  have hdm := Nat.div_add_mod (addr + 2 ^ k) (2 ^ k)
  have hlt : (addr + 2 ^ k) % 2 ^ k < 2 ^ k := Nat.mod_lt _ hp
  exact ⟨by omega, by omega, Dvd.intro _ rfl⟩

/-- The window start equals base whenever base is page aligned. -/
theorem winStart_eq (A : OSAllocator) (kp : Nat) (hps : A.page_size = 2 ^ kp)
    (hkp : kp ≤ 64) (hb : A.base < WORD) (hd : A.page_size ∣ A.base) :
    winStart A = A.base := by
  unfold winStart
  rw [Nat.mod_eq_of_lt hb, hps, land_mask _ kp hkp hb]
  exact roundDown_eq_self A.base (2 ^ kp) (Nat.pow_pos (by omega)) (hps ▸ hd)

/-- The window end is the round-up of base + size to a page boundary. -/
theorem winEnd_eq (A : OSAllocator) (s kp : Nat) (hps : A.page_size = 2 ^ kp)
    (hkp : kp ≤ 64) (hb : A.base + s + A.page_size ≤ WORD) :
    winEnd A s = A.page_size * ((A.base + s + A.page_size - 1) / A.page_size) := by
  unfold winEnd
  rw [hps] at hb ⊢
  exact align_to_eq (A.base + s) kp hkp hb

/-- align_to as round-up, restated through the power-of-two exponent. -/
theorem align_to_val (x p k : Nat) (hp : p = 2 ^ k) (hk : k ≤ 64) (h : x + p ≤ WORD) :
    Detail.align_to x p = p * ((x + p - 1) / p) := by
  subst hp
  exact align_to_eq x k hk h

/-- The page-aligned reserve size is at least the requested size. -/
theorem align_to_ge (x p k : Nat) (hp : p = 2 ^ k) (hk : k ≤ 64) (h : x + p ≤ WORD) :
    x ≤ Detail.align_to x p ∧ Detail.align_to x p < x + p := by
  rw [align_to_val x p k hp hk h]
  exact roundUp_bounds x p (by rw [hp]; exact Nat.pow_pos (by omega))

/- ===== Claim C1 ===== -/

/-- Claim C1: for every reserve_size > 0, power-of-two page_size, and
alignment in the set containing 0, page_size and page_size times a power of
two, a construct that completes (no OS call fails) yields a non-null base
with base mod max (page_size, alignment) = 0, assuming the OS reserve
primitive returns page-aligned non-null addresses whose span fits in the
address space. -/
theorem construct_base_aligned
    (os : OS) (m : Machine) (reserve_size page_size alignment kp : Nat)
    (hps : page_size = 2 ^ kp) (hkp : kp ≤ 64)
    (halign : alignment = 0 ∨ alignment = page_size ∨ ∃ k, alignment = page_size * 2 ^ k)
    (hrs : 0 < reserve_size)
    (hb : reserve_size + page_size ≤ WORD)
    (hos : ∀ s a, os.reserveAddr s = some a → a % page_size = 0 ∧ a ≠ 0 ∧ a + s ≤ WORD)
    (b : Nat)
    (h : ((construct os m reserve_size page_size alignment).1).map (fun r => r.1.base) = some b) :
    b ≠ 0 ∧ b % max page_size alignment = 0 := by
  by_cases hle : alignment ≤ page_size
  · cases hr : os.reserveAddr (Detail.align_to reserve_size page_size) with
    | none => rw [construct] at h; simp [hle, hr] at h
    | some ptr =>
      rw [construct_spec_aligned os m _ _ _ ptr hle hr] at h
      simp at h
      obtain ⟨hmod, hne, _⟩ := hos _ _ hr
      subst h
      rw [Nat.max_eq_left hle]
      exact ⟨hne, hmod⟩
  · cases hr : os.reserveAddr (Detail.align_to reserve_size page_size + alignment) with
    | none => rw [construct] at h; simp [hle, hr] at h
    | some addr =>
      obtain ⟨hmod, hne, hfit⟩ := hos _ _ hr
      obtain ⟨k, hal⟩ : ∃ k, alignment = 2 ^ (kp + k) := by
        rcases halign with h0 | hps2 | ⟨k, hk⟩
        · exact absurd (h0 ▸ Nat.zero_le page_size) hle
        · exact absurd (hps2 ▸ Nat.le_refl page_size) hle
        · exact ⟨k, by rw [hk, hps, pow_add]⟩
      have hk64 : kp + k ≤ 64 := by
        have h1 : 2 ^ (kp + k) ≤ 2 ^ 64 := by
          rw [← hal]
          calc alignment ≤ addr + (Detail.align_to reserve_size page_size + alignment) := by omega
          _ ≤ WORD := hfit
        exact (Nat.pow_le_pow_iff_right (by omega)).mp h1
      have hge : reserve_size ≤ Detail.align_to reserve_size page_size :=
        (align_to_ge reserve_size page_size kp hps hkp hb).1
      have hlt : addr + alignment < WORD := by omega
      have hup := upAligned_bounds addr (kp + k) hk64 (hal ▸ hlt)
      rw [← hal] at hup
      cases hp1 : os.protectOk addr (adjDiff addr alignment) Access.ReadWrite with
      | false =>
        rw [construct] at h
        simp only [adjDiff, upAligned] at hp1
        simp [hle, hr, hp1] at h
      | true =>
        cases hp2 : os.protectOk addr (adjDiff addr alignment) Access.ReadOnly with
        | false =>
          rw [construct] at h
          simp only [adjDiff, upAligned] at hp1 hp2
          simp [hle, hr, hp1, hp2] at h
        | true =>
          rw [construct_spec_over os m _ _ _ addr hle hr hp1 hp2] at h
          simp at h
          subst h
          have hmax : max page_size alignment = alignment :=
            Nat.max_eq_right (Nat.le_of_lt (Nat.lt_of_not_le hle))
          refine ⟨by omega, ?_⟩
          rw [hmax]
          obtain ⟨c, hc⟩ := hup.2.2
          rw [hal] at hc ⊢
          rw [hc]
          exact Nat.mul_mod_right _ _

/- ===== Concrete fixtures used by the witnesses ===== -/

/-- The osA oracle satisfies the sanity assumptions for page size 4. -/
theorem osA_sane : ∀ s a, osA.reserveAddr s = some a → a % 4 = 0 ∧ a ≠ 0 ∧ a + s ≤ WORD := by
  intro s a hsa
  simp only [osA] at hsa
  split at hsa
  case isTrue hs =>
    injection hsa with hsa
    subst hsa
    refine ⟨by decide, by decide, ?_⟩
    have h1 : (2 : Nat) ^ 32 = 4294967296 := by norm_num
    have h2 : WORD = 18446744073709551616 := by rw [WORD]; norm_num
    omega
  case isFalse hs => cases hsa

/-- Witness for claim C1 at reserve_size 1, page_size 4, alignment 8 with
the osA oracle: construct completes with base 65544, which is non-null and
a multiple of max (4, 8) = 8. -/
theorem construct_base_aligned_witness :
    (4 : Nat) = 2 ^ 2 ∧ (0 : Nat) < 1 ∧ (1 + 4 ≤ WORD) ∧
      ((construct osA m0 1 4 8).1).map (fun r => r.1.base) = some 65544 ∧
      (65544 ≠ 0 ∧ 65544 % max 4 8 = 0) :=
  ⟨rfl, by decide, by rw [WORD]; norm_num, by decide,
   construct_base_aligned osA m0 1 4 8 2 rfl (by omega)
     (Or.inr (Or.inr ⟨1, by decide⟩)) (by decide) (by rw [WORD]; norm_num)
     osA_sane 65544 (by decide)⟩

/- ===== Claim C2 ===== -/

/-- Counterexample to claim C2 as stated: with page_size 4, alignment 8 and
the OS returning raw = 4, construct completes with base 8, whereas
round_up (raw + alignment, alignment) = 16.  The code aligns raw + alignment
downward with the mask ~(alignment - 1); it does not round it up. -/
theorem construct_up_formula_cex :
    ((construct osB m0 1 4 8).1).map (fun r => r.1.base) = some 8 ∧
      round_up (4 + 8) 8 = 16 ∧ (8 : Nat) ≠ 16 :=
  ⟨by decide, by decide, by decide⟩

/-- Claim C2 (amended): for every construct with alignment > page_size that
completes, letting raw be the OS-returned address of the padded reservation,
the constructor computes up as raw + alignment rounded DOWN to a multiple of
alignment (the smallest multiple of alignment strictly above raw, not
round_up (raw + alignment, alignment)) and diff = up - raw, grants
read-write access to the diff-byte front slack, writes diff into the word
immediately preceding up, then downgrades the slack to read-only, and sets
base = up; the trace shows exactly this reserve, protect read-write,
protect read-only sequence. -/
theorem construct_overaligned_layout
    (os : OS) (m : Machine) (rs al ps ka : Nat)
    (hal : al = 2 ^ ka) (hka : ka ≤ 64) (hgt : ¬ al ≤ ps)
    (addr : Nat) (hres : os.reserveAddr (Detail.align_to rs ps + al) = some addr)
    (hfit : addr + al < WORD)
    (r : OSAllocator × Machine) (h : (construct os m rs ps al).1 = some r) :
    r.1.base = al * ((addr + al) / al) ∧
    addr < r.1.base ∧ r.1.base ≤ addr + al ∧
    r.2.words (r.1.base - WORDB) = r.1.base - addr ∧
    (construct os m rs ps al).2 =
      [Prim.reserve (Detail.align_to rs ps + al) (some addr),
       Prim.protect addr (r.1.base - addr) Access.ReadWrite true,
       Prim.protect addr (r.1.base - addr) Access.ReadOnly true] ∧
    (∀ x, addr ≤ x → x < r.1.base → r.2.access x = Access.ReadOnly) := by
  have hup := upAligned_bounds addr ka hka (hal ▸ hfit)
  rw [← hal] at hup
  cases hp1 : os.protectOk addr (adjDiff addr al) Access.ReadWrite with
  | false =>
    rw [construct] at h
    simp only [adjDiff, upAligned] at hp1
    simp [hgt, hres, hp1] at h
  | true =>
    cases hp2 : os.protectOk addr (adjDiff addr al) Access.ReadOnly with
    | false =>
      rw [construct] at h
      simp only [adjDiff, upAligned] at hp1 hp2
      simp [hgt, hres, hp1, hp2] at h
    | true =>
      rw [construct_spec_over os m rs ps al addr hgt hres hp1 hp2] at h
      simp only [Option.some.injEq] at h
      subst h
      have hb : adjDiff addr al = upAligned addr al - addr := rfl
      refine ⟨?_, hup.1, hup.2.1, ?_, ?_, ?_⟩
      · rw [hal]
        exact upAligned_eq addr ka hka (hal ▸ hfit)
      · simp [adjDiff]
      · rw [construct_spec_over os m rs ps al addr hgt hres hp1 hp2]
        dsimp only
        rfl
      · intro x hx1 hx2
        dsimp only at hx2
        simp only [setAccess]
        rw [if_pos ⟨hx1, by simp only [adjDiff]; omega⟩]

/-- Witness for the amended claim C2 at reserve_size 1, page_size 4,
alignment 8 with raw address 4: base is 8 (the round-down of 4 + 8 to a
multiple of 8), the word preceding base holds diff 4, and byte 5 of the
slack is read-only. -/
theorem construct_overaligned_layout_witness :
    osB.reserveAddr (Detail.align_to 1 4 + 8) = some 4 ∧ 4 + 8 < WORD ∧
      (construct osB m0 1 4 8).1 = some (cexAlloc, cexMachine) ∧
      cexAlloc.base = 8 * ((4 + 8) / 8) ∧
      cexMachine.words (cexAlloc.base - WORDB) = cexAlloc.base - 4 ∧
      cexMachine.access 5 = Access.ReadOnly :=
  ⟨by decide, by rw [WORD]; norm_num, rfl,
   (construct_overaligned_layout osB m0 1 8 4 3 rfl (by omega) (by decide) 4 (by decide)
     (by rw [WORD]; norm_num) (cexAlloc, cexMachine) rfl).1,
   (construct_overaligned_layout osB m0 1 8 4 3 rfl (by omega) (by decide) 4 (by decide)
     (by rw [WORD]; norm_num) (cexAlloc, cexMachine) rfl).2.2.2.1,
   (construct_overaligned_layout osB m0 1 8 4 3 rfl (by omega) (by decide) 4 (by decide)
     (by rw [WORD]; norm_num) (cexAlloc, cexMachine) rfl).2.2.2.2.2 5 (by decide) (by decide)⟩

/- ===== Claim C3 ===== -/

/-- Claim C3: destruct releases exactly the span construct reserved: the
release call names the same start address and the same size as the reserve
call recorded at the head of the construct trace, in both the aligned and
the over-aligned branch; hence construct immediately followed by destruct
never aborts when the OS calls succeed. -/
theorem construct_destruct_exact_span
    (os : OS) (m : Machine) (rs ps al kp : Nat)
    (hps : ps = 2 ^ kp) (hkp : kp ≤ 64)
    (hal : al ≤ ps ∨ ∃ ka, al = 2 ^ ka ∧ ka ≤ 64)
    (hrs : 0 < rs) (hb : rs + ps ≤ WORD)
    (hrel : ∀ a s, os.releaseOk a s = true)
    (raw S : Nat)
    (hres : (construct os m rs ps al).2.head? = some (Prim.reserve S (some raw)))
    (hfit : raw + S ≤ WORD)
    (r : OSAllocator × Machine) (h : (construct os m rs ps al).1 = some r) :
    (destruct os r.2 r.1).2 = [Prim.release raw S true] ∧
    (destruct os r.2 r.1).1.isSome = true := by
  by_cases hle : al ≤ ps
  · cases hr : os.reserveAddr (Detail.align_to rs ps) with
    | none => rw [construct] at h; simp [hle, hr] at h
    | some ptr =>
      rw [construct_spec_aligned os m rs ps al ptr hle hr] at h hres
      simp only [Option.some.injEq, List.head?_cons] at h hres
      obtain ⟨hS, hraw⟩ := Prim.reserve.injEq .. |>.mp hres
      injection hraw with hraw
      subst h hS hraw
      rw [destruct_spec_aligned os _ _ hle (hrel _ _)]
      exact ⟨rfl, rfl⟩
  · cases hr : os.reserveAddr (Detail.align_to rs ps + al) with
    | none => rw [construct] at h; simp [hle, hr] at h
    | some addr =>
      obtain ⟨ka, hka2, hka⟩ : ∃ ka, al = 2 ^ ka ∧ ka ≤ 64 := by
        rcases hal with hc | hc
        · exact absurd hc hle
        · exact hc
      have hge : rs ≤ Detail.align_to rs ps := (align_to_ge rs ps kp hps hkp hb).1
      cases hp1 : os.protectOk addr (adjDiff addr al) Access.ReadWrite with
      | false =>
        rw [construct] at h
        simp only [adjDiff, upAligned] at hp1
        simp [hle, hr, hp1] at h
      | true =>
        cases hp2 : os.protectOk addr (adjDiff addr al) Access.ReadOnly with
        | false =>
          rw [construct] at h
          simp only [adjDiff, upAligned] at hp1 hp2
          simp [hle, hr, hp1, hp2] at h
        | true =>
          rw [construct_spec_over os m rs ps al addr hle hr hp1 hp2] at h hres
          simp only [Option.some.injEq, List.head?_cons] at h hres
          obtain ⟨hS, hraw⟩ := Prim.reserve.injEq .. |>.mp hres
          injection hraw with hraw
          subst h hS hraw
          have hfit2 : addr + al < WORD := by omega
          have hup := upAligned_bounds addr ka hka (hka2 ▸ hfit2)
          rw [← hka2] at hup
          rw [destruct_spec_over os _ _ (by dsimp only; exact hle)
            (by dsimp only; exact hrel _ _)]
          dsimp only
          have hback : upAligned addr al - adjDiff addr al = addr := by
            simp only [adjDiff]; omega
          simp [hback]

/-- Witness for claim C3 at reserve_size 1, page_size 4, alignment 8 with
raw address 65536: construct reserves 12 bytes at 65536 and destruct
releases exactly 12 bytes at 65536 without aborting. -/
theorem construct_destruct_exact_span_witness :
    (construct osA m0 1 4 8).2.head? = some (Prim.reserve 12 (some 65536)) ∧
      65536 + 12 ≤ WORD ∧
      (construct osA m0 1 4 8).1 = some (c3Alloc, c3Machine) ∧
      (destruct osA c3Machine c3Alloc).2 = [Prim.release 65536 12 true] ∧
      (destruct osA c3Machine c3Alloc).1.isSome = true :=
  ⟨by decide, by rw [WORD]; norm_num, rfl,
   (construct_destruct_exact_span osA m0 1 4 8 2 rfl (by omega)
      (Or.inr ⟨3, rfl, by omega⟩) (by decide) (by rw [WORD]; norm_num)
      (fun _ _ => rfl) 65536 12 (by decide) (by rw [WORD]; norm_num)
      (c3Alloc, c3Machine) rfl).1,
   (construct_destruct_exact_span osA m0 1 4 8 2 rfl (by omega)
      (Or.inr ⟨3, rfl, by omega⟩) (by decide) (by rw [WORD]; norm_num)
      (fun _ _ => rfl) 65536 12 (by decide) (by rw [WORD]; norm_num)
      (c3Alloc, c3Machine) rfl).2⟩

/- ===== Claim C4 ===== -/

/-- The half-open window from base rounded down to base + s rounded up to
page boundaries contains exactly the bytes of pages intersecting
[b, b + s). -/
theorem window_pages (p b s x : Nat) (hp : 0 < p) (hs : 0 < s) :
    (p * (b / p) ≤ x ∧ x < p * ((b + s + p - 1) / p)) ↔ touchedPage b s p x := by
  have hb := Nat.div_add_mod b p
  have hbm : b % p < p := Nat.mod_lt _ hp
  have hx := Nat.div_add_mod x p
  have hxm : x % p < p := Nat.mod_lt _ hp
  have hB := roundUp_bounds (b + s) p hp
  have hstep : ∀ u v : Nat, p * u < p * v → p * u + p ≤ p * v := by
    intro u v huv
    have h1 : u < v := Nat.lt_of_mul_lt_mul_left huv
    have h2 : p * (u + 1) ≤ p * v := Nat.mul_le_mul_left p h1
    rw [Nat.mul_add, Nat.mul_one] at h2
    omega
  have bridge : ∀ u v : Nat, p * u < p * v + p → p * u ≤ p * v := by
    intro u v huv
    have h2 : p * u < p * (v + 1) := by rw [Nat.mul_add, Nat.mul_one]; omega
    exact Nat.mul_le_mul_left p (by have := Nat.lt_of_mul_lt_mul_left h2; omega)
  constructor
  · rintro ⟨h1, h2⟩
    have hCltB : p * (x / p) < p * ((b + s + p - 1) / p) := by omega
    have hCp := hstep _ _ hCltB
    have hAltCp : p * (b / p) < p * (x / p) + p := by omega
    have hAleC := bridge _ _ hAltCp
    exact ⟨by omega, by omega⟩
  · rintro ⟨g1, g2⟩
    have hCltB : p * (x / p) < p * ((b + s + p - 1) / p) := by omega
    have hCp := hstep _ _ hCltB
    have hAltCp : p * (b / p) < p * (x / p) + p := by omega
    have hAleC := bridge _ _ hAltCp
    exact ⟨by omega, by omega⟩

/-- Claim C4: for every size with 0 < size ≤ reserved_size, a successful
map grants read-write access to exactly the bytes of the whole pages
intersecting [base, base + size) (window start rounded down, end rounded up
to page boundaries), and leaves every other byte of the address space
unchanged. -/
theorem map_window_exact
    (os : OS) (m : Machine) (A : OSAllocator) (s kp : Nat)
    (hps : A.page_size = 2 ^ kp) (hkp : kp ≤ 64)
    (hs : 0 < s) (hsr : s ≤ A.reserved_size)
    (hfit : A.base + s + A.page_size ≤ WORD)
    (r : OSAllocator × Machine) (h : (OSAllocator.map os m A s).1 = some r) :
    ∀ x, (touchedPage A.base s A.page_size x → r.2.access x = Access.ReadWrite) ∧
         (¬ touchedPage A.base s A.page_size x → r.2.access x = m.access x) := by
  have hpp : 0 < A.page_size := by rw [hps]; exact Nat.pow_pos (by omega)
  have hbase : A.base < WORD := by omega
  have hW : winStart A = A.page_size * (A.base / A.page_size) := by
    unfold winStart
    rw [Nat.mod_eq_of_lt hbase, hps, land_mask _ kp hkp hbase]
  have hE : winEnd A s =
      A.page_size * ((A.base + s + A.page_size - 1) / A.page_size) :=
    winEnd_eq A s kp hps hkp hfit
  have hWb := Nat.div_add_mod A.base A.page_size
  have hWm : A.base % A.page_size < A.page_size := Nat.mod_lt _ hpp
  have hEb := roundUp_bounds (A.base + s) A.page_size hpp
  have hWE : winStart A ≤ winEnd A s := by rw [hW, hE]; omega
  cases hp1 : os.protectOk (winStart A) (winEnd A s - winStart A) Access.ReadWrite with
  | false =>
    rw [OSAllocator.map] at h
    simp only [winStart, winEnd] at hp1
    simp [hp1] at h
  | true =>
    rw [map_spec os m A s hp1] at h
    simp only [Option.some.injEq] at h
    subst h
    intro x
    have hchar := window_pages A.page_size A.base s x hpp hs
    rw [← hW, ← hE] at hchar
    constructor
    · intro ht
      obtain ⟨hx1, hx2⟩ := hchar.mpr ht
      dsimp only
      simp only [setAccess]
      rw [if_pos ⟨hx1, by omega⟩]
    · intro hnt
      dsimp only
      simp only [setAccess]
      rw [if_neg ?_]
      intro hcond
      exact hnt (hchar.mp ⟨hcond.1, by omega⟩)

/-- Witness for claim C4 at the boundary reserve_size = page_size + 1:
map (5) on a 2-page reservation makes byte 65543 (inside the page holding
byte reserve_size - 1) read-write and leaves byte 65544 (one past that page
boundary) inaccessible. -/
theorem map_window_exact_witness :
    (0 : Nat) < 5 ∧ (5 : Nat) ≤ c4Alloc.reserved_size ∧ 65536 + 5 + 4 ≤ WORD ∧
      (OSAllocator.map osA m0 c4Alloc 5).1 = some (c4Alloc, c4Machine) ∧
      touchedPage 65536 5 4 65543 ∧ c4Machine.access 65543 = Access.ReadWrite ∧
      ¬ touchedPage 65536 5 4 65544 ∧ c4Machine.access 65544 = Access.NoAccess :=
  ⟨by decide, by decide, by rw [WORD]; norm_num, rfl,
   by decide,
   (map_window_exact osA m0 c4Alloc 5 2 rfl (by omega) (by decide) (by decide)
      (by norm_num [c4Alloc, WORD]) (c4Alloc, c4Machine) rfl 65543).1 (by decide),
   by decide,
   Eq.trans
     ((map_window_exact osA m0 c4Alloc 5 2 rfl (by omega) (by decide) (by decide)
        (by norm_num [c4Alloc, WORD]) (c4Alloc, c4Machine) rfl 65544).2 (by decide))
     rfl⟩

/- ===== Claim C5 ===== -/

/-- Claim C5: map is idempotent: after two consecutive successful map calls
with the same size the per-byte access state is identical to the state
after one call. -/
theorem map_idempotent
    (os : OS) (m : Machine) (A : OSAllocator) (s : Nat)
    (r1 : OSAllocator × Machine) (h1 : (OSAllocator.map os m A s).1 = some r1)
    (r2 : OSAllocator × Machine) (h2 : (OSAllocator.map os r1.2 A s).1 = some r2) :
    ∀ x, r2.2.access x = r1.2.access x := by
  cases hp1 : os.protectOk (winStart A) (winEnd A s - winStart A) Access.ReadWrite with
  | false =>
    rw [OSAllocator.map] at h1
    simp only [winStart, winEnd] at hp1
    simp [hp1] at h1
  | true =>
    rw [map_spec os m A s hp1] at h1
    simp only [Option.some.injEq] at h1
    subst h1
    rw [map_spec os _ A s hp1] at h2
    simp only [Option.some.injEq] at h2
    subst h2
    intro x
    dsimp only
    simp only [setAccess]
    by_cases hx : winStart A ≤ x ∧ x < winStart A + (winEnd A s - winStart A)
    · rw [if_pos hx, if_pos hx]
    · rw [if_neg hx, if_neg hx]

/-- Witness for claim C5: mapping 5 bytes of the two-page reservation twice
leaves the same access state at byte 65543 as mapping once. -/
theorem map_idempotent_witness :
    (OSAllocator.map osA m0 c4Alloc 5).1 = some (c4Alloc, c4Machine) ∧
      (OSAllocator.map osA c4Machine c4Alloc 5).1 = some (c4Alloc, c5Machine) ∧
      c5Machine.access 65543 = c4Machine.access 65543 :=
  ⟨rfl, rfl,
   map_idempotent osA m0 c4Alloc 5 (c4Alloc, c4Machine) rfl (c4Alloc, c5Machine) rfl 65543⟩

/- ===== Claim C6 ===== -/

/-- Claim C6: unmap computes exactly the same page-rounded window as map
would for the same size (the traces name the same start and length), sets
every byte of that window back to NoAccess, and leaves every byte outside
the window unchanged. -/
theorem unmap_window_matches_map
    (os : OS) (m : Machine) (A : OSAllocator) (s kp : Nat)
    (hps : A.page_size = 2 ^ kp) (hkp : kp ≤ 64)
    (hs : 0 < s) (hsr : s ≤ A.reserved_size)
    (hfit : A.base + s + A.page_size ≤ WORD)
    (r : OSAllocator × Machine) (h : (OSAllocator.unmap os m A s).1 = some r) :
    (OSAllocator.map os m A s).2 =
      [Prim.protect (winStart A) (winEnd A s - winStart A) Access.ReadWrite
        (os.protectOk (winStart A) (winEnd A s - winStart A) Access.ReadWrite)] ∧
    (OSAllocator.unmap os m A s).2 =
      [Prim.protect (winStart A) (winEnd A s - winStart A) Access.NoAccess true] ∧
    (∀ x, (touchedPage A.base s A.page_size x → r.2.access x = Access.NoAccess) ∧
          (¬ touchedPage A.base s A.page_size x → r.2.access x = m.access x)) := by
  have hpp : 0 < A.page_size := by rw [hps]; exact Nat.pow_pos (by omega)
  have hbase : A.base < WORD := by omega
  have hW : winStart A = A.page_size * (A.base / A.page_size) := by
    unfold winStart
    rw [Nat.mod_eq_of_lt hbase, hps, land_mask _ kp hkp hbase]
  have hE : winEnd A s =
      A.page_size * ((A.base + s + A.page_size - 1) / A.page_size) :=
    winEnd_eq A s kp hps hkp hfit
  have hWb := Nat.div_add_mod A.base A.page_size
  have hWm : A.base % A.page_size < A.page_size := Nat.mod_lt _ hpp
  have hEb := roundUp_bounds (A.base + s) A.page_size hpp
  have hWE : winStart A ≤ winEnd A s := by rw [hW, hE]; omega
  cases hp1 : os.protectOk (winStart A) (winEnd A s - winStart A) Access.NoAccess with
  | false =>
    rw [OSAllocator.unmap] at h
    simp only [winStart, winEnd] at hp1
    simp [hp1] at h
  | true =>
    refine ⟨?_, ?_, ?_⟩
    · cases hpm : os.protectOk (winStart A) (winEnd A s - winStart A) Access.ReadWrite with
      | false =>
        rw [OSAllocator.map]
        simp only [winStart, winEnd] at hpm ⊢
        simp [hpm]
      | true =>
        rw [map_spec os m A s hpm]
    · rw [unmap_spec os m A s hp1]
    · rw [unmap_spec os m A s hp1] at h
      simp only [Option.some.injEq] at h
      subst h
      intro x
      have hchar := window_pages A.page_size A.base s x hpp hs
      rw [← hW, ← hE] at hchar
      constructor
      · intro ht
        obtain ⟨hx1, hx2⟩ := hchar.mpr ht
        dsimp only
        simp only [setAccess]
        rw [if_pos ⟨hx1, by omega⟩]
      · intro hnt
        dsimp only
        simp only [setAccess]
        rw [if_neg ?_]
        intro hcond
        exact hnt (hchar.mp ⟨hcond.1, by omega⟩)

/-- Witness for claim C6: unmap (5) on the mapped two-page reservation uses
the same window [65536, 65544) as map, byte 65543 becomes inaccessible and
byte 65544 keeps its prior state. -/
theorem unmap_window_matches_map_witness :
    (0 : Nat) < 5 ∧ (5 : Nat) ≤ c4Alloc.reserved_size ∧
      (OSAllocator.unmap osA c4Machine c4Alloc 5).1 = some (c4Alloc, c6Machine) ∧
      (OSAllocator.map osA c4Machine c4Alloc 5).2 =
        [Prim.protect (winStart c4Alloc) (winEnd c4Alloc 5 - winStart c4Alloc)
          Access.ReadWrite true] ∧
      (OSAllocator.unmap osA c4Machine c4Alloc 5).2 =
        [Prim.protect (winStart c4Alloc) (winEnd c4Alloc 5 - winStart c4Alloc)
          Access.NoAccess true] ∧
      c6Machine.access 65543 = Access.NoAccess ∧
      c6Machine.access 65544 = c4Machine.access 65544 :=
  ⟨by decide, by decide, rfl,
   (unmap_window_matches_map osA c4Machine c4Alloc 5 2 rfl (by omega) (by decide) (by decide)
      (by norm_num [c4Alloc, WORD]) (c4Alloc, c6Machine) rfl).1,
   (unmap_window_matches_map osA c4Machine c4Alloc 5 2 rfl (by omega) (by decide) (by decide)
      (by norm_num [c4Alloc, WORD]) (c4Alloc, c6Machine) rfl).2.1,
   ((unmap_window_matches_map osA c4Machine c4Alloc 5 2 rfl (by omega) (by decide) (by decide)
      (by norm_num [c4Alloc, WORD]) (c4Alloc, c6Machine) rfl).2.2 65543).1 (by decide),
   ((unmap_window_matches_map osA c4Machine c4Alloc 5 2 rfl (by omega) (by decide) (by decide)
      (by norm_num [c4Alloc, WORD]) (c4Alloc, c6Machine) rfl).2.2 65544).2 (by decide)⟩

/- ===== Claim C7 ===== -/

/-- Claim C7: map and unmap leave all four reservation fields (base,
reserved_size, page_size, alignment) unchanged, and do not touch stored
words; they modify only the access state of pages. -/
theorem map_unmap_frame
    (os os2 : OS) (m m2 : Machine) (A : OSAllocator) (s s2 : Nat)
    (r1 r2 : OSAllocator × Machine)
    (h1 : (OSAllocator.map os m A s).1 = some r1)
    (h2 : (OSAllocator.unmap os2 m2 A s2).1 = some r2) :
    (r1.1.base = A.base ∧ r1.1.reserved_size = A.reserved_size ∧
     r1.1.page_size = A.page_size ∧ r1.1.alignment = A.alignment ∧
     r1.2.words = m.words) ∧
    (r2.1.base = A.base ∧ r2.1.reserved_size = A.reserved_size ∧
     r2.1.page_size = A.page_size ∧ r2.1.alignment = A.alignment ∧
     r2.2.words = m2.words) := by
  constructor
  · cases hp1 : os.protectOk (winStart A) (winEnd A s - winStart A) Access.ReadWrite with
    | false =>
      rw [OSAllocator.map] at h1
      simp only [winStart, winEnd] at hp1
      simp [hp1] at h1
    | true =>
      rw [map_spec os m A s hp1] at h1
      simp only [Option.some.injEq] at h1
      subst h1
      exact ⟨rfl, rfl, rfl, rfl, rfl⟩
  · cases hp2 : os2.protectOk (winStart A) (winEnd A s2 - winStart A) Access.NoAccess with
    | false =>
      rw [OSAllocator.unmap] at h2
      simp only [winStart, winEnd] at hp2
      simp [hp2] at h2
    | true =>
      rw [unmap_spec os2 m2 A s2 hp2] at h2
      simp only [Option.some.injEq] at h2
      subst h2
      exact ⟨rfl, rfl, rfl, rfl, rfl⟩

/-- Witness for claim C7: a map and an unmap on the two-page reservation
both return the four fields unchanged. -/
theorem map_unmap_frame_witness :
    (OSAllocator.map osA m0 c4Alloc 5).1 = some (c4Alloc, c4Machine) ∧
      (OSAllocator.unmap osA c4Machine c4Alloc 5).1 = some (c4Alloc, c6Machine) ∧
      c4Alloc.base = 65536 ∧ c4Alloc.reserved_size = 5 ∧
      c4Alloc.page_size = 4 ∧ c4Alloc.alignment = 0 :=
  ⟨rfl, rfl,
   ((map_unmap_frame osA osA m0 c4Machine c4Alloc 5 5 (c4Alloc, c4Machine)
       (c4Alloc, c6Machine) rfl rfl).1.1).trans rfl,
   ((map_unmap_frame osA osA m0 c4Machine c4Alloc 5 5 (c4Alloc, c4Machine)
       (c4Alloc, c6Machine) rfl rfl).1.2.1).trans rfl,
   ((map_unmap_frame osA osA m0 c4Machine c4Alloc 5 5 (c4Alloc, c4Machine)
       (c4Alloc, c6Machine) rfl rfl).1.2.2.1).trans rfl,
   ((map_unmap_frame osA osA m0 c4Machine c4Alloc 5 5 (c4Alloc, c4Machine)
       (c4Alloc, c6Machine) rfl rfl).1.2.2.2.1).trans rfl⟩

/- ===== Claim C8 ===== -/

/-- Claim C8: every operation aborts (returns none) exactly when one of the
OS primitive calls in its trace fails, no operation returns a recoverable
value on a failure, and no call is retried: each trace lists pairwise
distinct calls. -/
theorem abort_iff_os_failure :
    (∀ os m rs ps al, ((construct os m rs ps al).1 = none ↔
        ∃ c ∈ (construct os m rs ps al).2, primFailed c = true) ∧
      ((construct os m rs ps al).2).Nodup) ∧
    (∀ os m A, ((destruct os m A).1 = none ↔
        ∃ c ∈ (destruct os m A).2, primFailed c = true) ∧
      ((destruct os m A).2).Nodup) ∧
    (∀ os m A s, ((OSAllocator.map os m A s).1 = none ↔
        ∃ c ∈ (OSAllocator.map os m A s).2, primFailed c = true) ∧
      ((OSAllocator.map os m A s).2).Nodup) ∧
    (∀ os m A s, ((OSAllocator.unmap os m A s).1 = none ↔
        ∃ c ∈ (OSAllocator.unmap os m A s).2, primFailed c = true) ∧
      ((OSAllocator.unmap os m A s).2).Nodup) := by
  refine ⟨?_, ?_, ?_, ?_⟩
  · intro os m rs ps al
    by_cases hle : al ≤ ps
    · cases hr : os.reserveAddr (Detail.align_to rs ps) with
      | none => simp [construct, hle, hr, primFailed]
      | some ptr => simp [construct, hle, hr, primFailed]
    · cases hr : os.reserveAddr (Detail.align_to rs ps + al) with
      | none => simp [construct, hle, hr, primFailed]
      | some addr =>
        cases hp1 : os.protectOk addr (adjDiff addr al) Access.ReadWrite with
        | false =>
          simp only [adjDiff, upAligned] at hp1
          simp [construct, hle, hr, hp1, primFailed]
        | true =>
          cases hp2 : os.protectOk addr (adjDiff addr al) Access.ReadOnly with
          | false =>
            simp only [adjDiff, upAligned] at hp1 hp2
            simp [construct, hle, hr, hp1, hp2, primFailed]
          | true =>
            simp only [adjDiff, upAligned] at hp1 hp2
            simp [construct, hle, hr, hp1, hp2, primFailed]
  · intro os m A
    by_cases hle : A.alignment ≤ A.page_size
    · cases hr : os.releaseOk A.base (Detail.align_to A.reserved_size A.page_size) with
      | false => simp [destruct, hle, hr, primFailed]
      | true => simp [destruct, hle, hr, primFailed]
    · cases hr : os.releaseOk (A.base - m.words (A.base - WORDB))
        (Detail.align_to A.reserved_size A.page_size + A.alignment) with
      | false => simp [destruct, hle, hr, primFailed]
      | true => simp [destruct, hle, hr, primFailed]
  · intro os m A s
    cases hp : os.protectOk (winStart A) (winEnd A s - winStart A) Access.ReadWrite with
    | false =>
      simp only [winStart, winEnd] at hp
      simp [OSAllocator.map, hp, primFailed]
    | true =>
      simp only [winStart, winEnd] at hp
      simp [OSAllocator.map, hp, primFailed]
  · intro os m A s
    cases hp : os.protectOk (winStart A) (winEnd A s - winStart A) Access.NoAccess with
    | false =>
      simp only [winStart, winEnd] at hp
      simp [OSAllocator.unmap, hp, primFailed]
    | true =>
      simp only [winStart, winEnd] at hp
      simp [OSAllocator.unmap, hp, primFailed]

/- ===== Helper lemmas on traces and operation sequences ===== -/

/-- The trace of a map call is always the single protect call on the
page-rounded window, succeeding or not. -/
theorem map_trace_shape (os : OS) (m : Machine) (A : OSAllocator) (s : Nat) :
    (OSAllocator.map os m A s).2 =
      [Prim.protect (winStart A) (winEnd A s - winStart A) Access.ReadWrite
        (os.protectOk (winStart A) (winEnd A s - winStart A) Access.ReadWrite)] := by
  cases hpm : os.protectOk (winStart A) (winEnd A s - winStart A) Access.ReadWrite with
  | false =>
    rw [OSAllocator.map]
    simp only [winStart, winEnd] at hpm
    simp [hpm, winStart, winEnd]
  | true =>
    rw [map_spec os m A s hpm]

/-- The trace of an unmap call is always the single protect call on the
page-rounded window, succeeding or not. -/
theorem unmap_trace_shape (os : OS) (m : Machine) (A : OSAllocator) (s : Nat) :
    (OSAllocator.unmap os m A s).2 =
      [Prim.protect (winStart A) (winEnd A s - winStart A) Access.NoAccess
        (os.protectOk (winStart A) (winEnd A s - winStart A) Access.NoAccess)] := by
  cases hpm : os.protectOk (winStart A) (winEnd A s - winStart A) Access.NoAccess with
  | false =>
    rw [OSAllocator.unmap]
    simp only [winStart, winEnd] at hpm
    simp [hpm, winStart, winEnd]
  | true =>
    rw [unmap_spec os m A s hpm]

/-- A successful map call does not change bytes below the window start. -/
theorem map_keeps_below (os : OS) (m : Machine) (A : OSAllocator) (s : Nat)
    (r : OSAllocator × Machine) (h : (OSAllocator.map os m A s).1 = some r)
    (x : Nat) (hx : x < winStart A) : r.2.access x = m.access x := by
  cases hp1 : os.protectOk (winStart A) (winEnd A s - winStart A) Access.ReadWrite with
  | false =>
    rw [OSAllocator.map] at h
    simp only [winStart, winEnd] at hp1
    simp [hp1] at h
  | true =>
    rw [map_spec os m A s hp1] at h
    simp only [Option.some.injEq] at h
    subst h
    dsimp only
    simp only [setAccess]
    rw [if_neg (by omega)]

/-- A successful unmap call does not change bytes below the window start. -/
theorem unmap_keeps_below (os : OS) (m : Machine) (A : OSAllocator) (s : Nat)
    (r : OSAllocator × Machine) (h : (OSAllocator.unmap os m A s).1 = some r)
    (x : Nat) (hx : x < winStart A) : r.2.access x = m.access x := by
  cases hp1 : os.protectOk (winStart A) (winEnd A s - winStart A) Access.NoAccess with
  | false =>
    rw [OSAllocator.unmap] at h
    simp only [winStart, winEnd] at hp1
    simp [hp1] at h
  | true =>
    rw [unmap_spec os m A s hp1]  at h
    simp only [Option.some.injEq] at h
    subst h
    dsimp only
    simp only [setAccess]
    rw [if_neg (by omega)]

/-- Any sequence of map and unmap calls leaves the bytes below the window
start untouched. -/
theorem runOps_keeps_below (os : OS) (A : OSAllocator) (ops : List (Bool × Nat)) :
    ∀ m mm, runOps os A m ops = some mm →
      ∀ x, x < winStart A → mm.access x = m.access x := by
  induction ops with
  | nil =>
    intro m mm h x hx
    rw [runOps] at h
    injection h with h
    subst h
    rfl
  | cons op rest ih =>
    intro m mm h x hx
    obtain ⟨b, s⟩ := op
    cases b with
    | true =>
      rw [runOps] at h
      cases hm : (OSAllocator.map os m A s).1 with
      | none => rw [hm] at h; cases h
      | some r =>
        rw [hm] at h
        exact (ih r.2 mm h x hx).trans (map_keeps_below os m A s r hm x hx)
    | false =>
      rw [runOps] at h
      cases hm : (OSAllocator.unmap os m A s).1 with
      | none => rw [hm] at h; cases h
      | some r =>
        rw [hm] at h
        exact (ih r.2 mm h x hx).trans (unmap_keeps_below os m A s r hm x hx)

/- ===== Claim C9 ===== -/

/-- Claim C9: for an over-aligned reservation, construction leaves the
slack region [raw, base) read-only; every window a later map or unmap call
passes to the OS starts exactly at base (base rounded down to a page
boundary is base itself), so it includes no address below base; hence after
any sequence of map and unmap calls every byte of [raw, base) - in
particular the page content holding the adjustment word - is still
read-accessible (read-only). -/
theorem slack_readonly_forever
    (os : OS) (m : Machine) (rs ps al kp ka : Nat)
    (hps : ps = 2 ^ kp) (hal : al = 2 ^ ka) (hka : ka ≤ 64)
    (hgt : ¬ al ≤ ps)
    (addr : Nat) (hres : os.reserveAddr (Detail.align_to rs ps + al) = some addr)
    (hfit : addr + al < WORD)
    (r : OSAllocator × Machine) (h : (construct os m rs ps al).1 = some r)
    (ops : List (Bool × Nat)) (mm : Machine) (hrun : runOps os r.1 r.2 ops = some mm) :
    (∀ x, addr ≤ x → x < r.1.base → r.2.access x = Access.ReadOnly) ∧
    winStart r.1 = r.1.base ∧
    (∀ mw s c, c ∈ (OSAllocator.map os mw r.1 s).2 → primStart c = r.1.base) ∧
    (∀ mw s c, c ∈ (OSAllocator.unmap os mw r.1 s).2 → primStart c = r.1.base) ∧
    (∀ x, addr ≤ x → x < r.1.base → mm.access x = Access.ReadOnly) := by
  have hkka : kp < ka := by
    have h1 : 2 ^ kp < 2 ^ ka := by
      rw [← hps, ← hal]
      exact Nat.lt_of_not_le hgt
    exact (Nat.pow_lt_pow_iff_right (by omega)).mp h1
  have hdal : ps ∣ al := by
    rw [hps, hal]
    exact pow_dvd_pow 2 (by omega)
  cases hp1 : os.protectOk addr (adjDiff addr al) Access.ReadWrite with
  | false =>
    rw [construct] at h
    simp only [adjDiff, upAligned] at hp1
    simp [hgt, hres, hp1] at h
  | true =>
    cases hp2 : os.protectOk addr (adjDiff addr al) Access.ReadOnly with
    | false =>
      rw [construct] at h
      simp only [adjDiff, upAligned] at hp1 hp2
      simp [hgt, hres, hp1, hp2] at h
    | true =>
      rw [construct_spec_over os m rs ps al addr hgt hres hp1 hp2] at h
      simp only [Option.some.injEq] at h
      subst h
      have hup := upAligned_bounds addr ka hka (hal ▸ hfit)
      rw [← hal] at hup
      have hslack : ∀ x, addr ≤ x → x < upAligned addr al →
          (setAccess (setAccess
              (setAccess m.access addr (Detail.align_to rs ps + al) Access.NoAccess)
              addr (adjDiff addr al) Access.ReadWrite)
            addr (adjDiff addr al) Access.ReadOnly) x = Access.ReadOnly := by
        intro x hx1 hx2
        simp only [setAccess]
        rw [if_pos ⟨hx1, by simp only [adjDiff]; omega⟩]
      have hwin : winStart
          ({ base := upAligned addr al, reserved_size := rs,
             page_size := ps, alignment := al } : OSAllocator) = upAligned addr al := by
        apply winStart_eq _ kp
        · exact hps
        · omega
        · dsimp only
          omega
        · dsimp only
          exact Dvd.dvd.trans hdal hup.2.2
      refine ⟨fun x hx1 hx2 => hslack x hx1 (by dsimp only at hx2; exact hx2), hwin,
        ?_, ?_, ?_⟩
      · intro mw s c hc
        rw [map_trace_shape os mw _ s] at hc
        simp only [List.mem_singleton] at hc
        subst hc
        simp [primStart, hwin]
      · intro mw s c hc
        rw [unmap_trace_shape os mw _ s] at hc
        simp only [List.mem_singleton] at hc
        subst hc
        simp [primStart, hwin]
      · intro x hx1 hx2
        dsimp only at hx2 hrun
        have hkeep := runOps_keeps_below os _ ops _ mm hrun x (by rw [hwin]; exact hx2)
        rw [hkeep]
        exact hslack x hx1 hx2

/-- Witness for claim C9: after constructing the over-aligned reservation
(raw 65536, base 65544) and then running map 1 followed by unmap 1, the
slack byte 65540 is still read-only and the window start equals base. -/
theorem slack_readonly_forever_witness :
    osA.reserveAddr (Detail.align_to 1 4 + 8) = some 65536 ∧ 65536 + 8 < WORD ∧
      (construct osA m0 1 4 8).1 = some (c3Alloc, c3Machine) ∧
      runOps osA c3Alloc c3Machine [(true, 1), (false, 1)] = some c9Machine ∧
      c3Machine.access 65540 = Access.ReadOnly ∧
      winStart c3Alloc = c3Alloc.base ∧
      c9Machine.access 65540 = Access.ReadOnly :=
  ⟨by decide, by rw [WORD]; norm_num, rfl, rfl,
   (slack_readonly_forever osA m0 1 4 8 2 3 rfl rfl (by omega) (by decide) 65536
      (by decide) (by rw [WORD]; norm_num) (c3Alloc, c3Machine) rfl
      [(true, 1), (false, 1)] c9Machine rfl).1 65540 (by decide) (by decide),
   (slack_readonly_forever osA m0 1 4 8 2 3 rfl rfl (by omega) (by decide) 65536
      (by decide) (by rw [WORD]; norm_num) (c3Alloc, c3Machine) rfl
      [(true, 1), (false, 1)] c9Machine rfl).2.1,
   (slack_readonly_forever osA m0 1 4 8 2 3 rfl rfl (by omega) (by decide) 65536
      (by decide) (by rw [WORD]; norm_num) (c3Alloc, c3Machine) rfl
      [(true, 1), (false, 1)] c9Machine rfl).2.2.2.2 65540 (by decide) (by decide)⟩

/- ===== Claim C10 ===== -/

/-- Counterexample to claim C10 as stated: with page_size 4 (a power of two
smaller than the 8-byte word), alignment 8 and page-aligned raw = 4,
construct completes with base 8 and diff 4, but the adjustment word
occupies [base - 8, base) = [0, 8), which is not wholly inside the front
slack [raw, raw + diff) = [4, 8): its start 0 lies below raw = 4. -/
theorem adjustment_word_slack_cex :
    ((construct osB m0 1 4 8).1).map (fun r => (r.1.base, r.1.base - WORDB)) = some (8, 0) ∧
      (4 : Nat) % 4 = 0 ∧ ¬ (4 : Nat) ≤ 0 :=
  ⟨by decide, by decide, by decide⟩

/-- The trace of a destruct in the over-aligned branch, succeeding or not:
one release of the padded span starting at base minus the stored word. -/
theorem destruct_trace_over (os : OS) (m : Machine) (A : OSAllocator)
    (hgt : ¬ A.alignment ≤ A.page_size) :
    (destruct os m A).2 =
      [Prim.release (A.base - m.words (A.base - WORDB))
        (Detail.align_to A.reserved_size A.page_size + A.alignment)
        (os.releaseOk (A.base - m.words (A.base - WORDB))
          (Detail.align_to A.reserved_size A.page_size + A.alignment))] := by
  cases hrl : os.releaseOk (A.base - m.words (A.base - WORDB))
      (Detail.align_to A.reserved_size A.page_size + A.alignment) with
  | false =>
    rw [destruct]
    simp [hgt, hrl]
  | true =>
    rw [destruct_spec_over os m A hgt hrl]

/-- Claim C10 (amended): adding the assumption page_size ≥ 8 (the stored
word size, without which the adjustment word overhangs the slack): for
every over-aligned construct with page-aligned raw and powers of two, the
stored adjustment diff = base - raw is a multiple of page_size with
page_size ≤ diff ≤ alignment; the adjustment word [base - 8, base) lies
wholly inside the front slack [raw, raw + diff); every protect window of
construct and of any map or unmap with 0 < size ≤ reserve_size, and the
destruct release span, lie within the padded span
[raw, raw + align_to (reserve_size, page_size) + alignment). -/
theorem overaligned_adjustment_bounds
    (os : OS) (m : Machine) (rs ps al kp ka : Nat)
    (hps : ps = 2 ^ kp) (hal : al = 2 ^ ka) (hka : ka ≤ 64)
    (hgt : ¬ al ≤ ps) (hword : WORDB ≤ ps)
    (hrs : 0 < rs) (hb : rs + ps ≤ WORD)
    (addr : Nat) (hres : os.reserveAddr (Detail.align_to rs ps + al) = some addr)
    (hraw : addr % ps = 0)
    (hfit : addr + (Detail.align_to rs ps + al) + ps ≤ WORD)
    (r : OSAllocator × Machine) (h : (construct os m rs ps al).1 = some r) :
    (ps ∣ (r.1.base - addr) ∧ ps ≤ r.1.base - addr ∧ r.1.base - addr ≤ al) ∧
    (addr ≤ r.1.base - WORDB ∧ r.1.base ≤ addr + (r.1.base - addr)) ∧
    (∀ a l acc ok, Prim.protect a l acc ok ∈ (construct os m rs ps al).2 →
       addr ≤ a ∧ a + l ≤ addr + (Detail.align_to rs ps + al)) ∧
    (∀ mw s, 0 < s → s ≤ rs →
       (∀ a l acc ok, Prim.protect a l acc ok ∈ (OSAllocator.map os mw r.1 s).2 →
          addr ≤ a ∧ a + l ≤ addr + (Detail.align_to rs ps + al)) ∧
       (∀ a l acc ok, Prim.protect a l acc ok ∈ (OSAllocator.unmap os mw r.1 s).2 →
          addr ≤ a ∧ a + l ≤ addr + (Detail.align_to rs ps + al))) ∧
    (destruct os r.2 r.1).2 =
       [Prim.release addr (Detail.align_to rs ps + al)
         (os.releaseOk addr (Detail.align_to rs ps + al))] := by
  have hpp : 0 < ps := by rw [hps]; exact Nat.pow_pos (by omega)
  have hkka : kp < ka := by
    have h1 : 2 ^ kp < 2 ^ ka := by
      rw [← hps, ← hal]
      exact Nat.lt_of_not_le hgt
    exact (Nat.pow_lt_pow_iff_right (by omega)).mp h1
  have hdal : ps ∣ al := by
    rw [hps, hal]
    exact pow_dvd_pow 2 (by omega)
  have halv : Detail.align_to rs ps = ps * ((rs + ps - 1) / ps) :=
    align_to_val rs ps kp hps (by omega) hb
  have hgal : rs ≤ Detail.align_to rs ps ∧ Detail.align_to rs ps < rs + ps :=
    align_to_ge rs ps kp hps (by omega) hb
  have hdalv : ps ∣ Detail.align_to rs ps := by rw [halv]; exact Dvd.intro _ rfl
  have hfit2 : addr + al < WORD := by omega
  cases hp1 : os.protectOk addr (adjDiff addr al) Access.ReadWrite with
  | false =>
    rw [construct] at h
    simp only [adjDiff, upAligned] at hp1
    simp [hgt, hres, hp1] at h
  | true =>
    cases hp2 : os.protectOk addr (adjDiff addr al) Access.ReadOnly with
    | false =>
      rw [construct] at h
      simp only [adjDiff, upAligned] at hp1 hp2
      simp [hgt, hres, hp1, hp2] at h
    | true =>
      rw [construct_spec_over os m rs ps al addr hgt hres hp1 hp2] at h
      simp only [Option.some.injEq] at h
      subst h
      have hup := upAligned_bounds addr ka hka (hal ▸ hfit2)
      rw [← hal] at hup
      have hdup : ps ∣ upAligned addr al := Dvd.dvd.trans hdal hup.2.2
      have hddiff : ps ∣ (upAligned addr al - addr) :=
        Nat.dvd_sub' hdup (Nat.dvd_of_mod_eq_zero hraw)
      have hlediff : ps ≤ upAligned addr al - addr :=
        Nat.le_of_dvd (by omega) hddiff
      set A2 : OSAllocator := { base := upAligned addr al, reserved_size := rs,
                                page_size := ps, alignment := al } with hA2def
      have hA2base : A2.base = upAligned addr al := rfl
      have hA2ps : A2.page_size = ps := rfl
      have hwin : winStart A2 = upAligned addr al := by
        apply winStart_eq A2 kp
        · rw [hA2ps]
          exact hps
        · omega
        · rw [hA2base]
          omega
        · rw [hA2base, hA2ps]
          exact hdup
      refine ⟨⟨hddiff, hlediff, by rw [hA2base]; omega⟩,
        ⟨by rw [hA2base]; omega, by rw [hA2base]; omega⟩, ?_, ?_, ?_⟩
      · intro a l acc ok hmem
        rw [construct_spec_over os m rs ps al addr hgt hres hp1 hp2] at hmem
        dsimp only at hmem
        simp only [List.mem_cons, List.not_mem_nil, or_false] at hmem
        rcases hmem with hmem | hmem | hmem
        · cases hmem
        · obtain ⟨ha, hl, _, _⟩ := Prim.protect.injEq .. |>.mp hmem.symm
          subst ha
          subst hl
          simp only [adjDiff]
          omega
        · obtain ⟨ha, hl, _, _⟩ := Prim.protect.injEq .. |>.mp hmem.symm
          subst ha
          subst hl
          simp only [adjDiff]
          omega
      · intro mw s hs hsr
        have hfit3 : A2.base + s + A2.page_size ≤ WORD := by
          rw [hA2base, hA2ps]
          omega
        have hend : winEnd A2 s = ps * ((upAligned addr al + s + ps - 1) / ps) := by
          rw [winEnd_eq A2 s kp (hA2ps.trans hps) (by omega) hfit3, hA2base, hA2ps]
        have hendle : ps * ((upAligned addr al + s + ps - 1) / ps) ≤
            upAligned addr al + Detail.align_to rs ps := by
          apply roundUp_le_of_dvd _ _ _ hpp (Dvd.dvd.add hdup hdalv)
          omega
        have hendge := roundUp_bounds (upAligned addr al + s) ps hpp
        constructor
        · intro a l acc ok hmem
          rw [map_trace_shape os mw A2 s] at hmem
          simp only [List.mem_singleton] at hmem
          obtain ⟨ha, hl, _, _⟩ := Prim.protect.injEq .. |>.mp hmem.symm
          subst ha
          subst hl
          rw [hwin, hend]
          omega
        · intro a l acc ok hmem
          rw [unmap_trace_shape os mw A2 s] at hmem
          simp only [List.mem_singleton] at hmem
          obtain ⟨ha, hl, _, _⟩ := Prim.protect.injEq .. |>.mp hmem.symm
          subst ha
          subst hl
          rw [hwin, hend]
          omega
      · dsimp only
        have hgt2 : ¬ A2.alignment ≤ A2.page_size := by
          rw [hA2def]
          exact hgt
        rw [destruct_trace_over os _ A2 hgt2, hA2base]
        have hback : upAligned addr al - adjDiff addr al = addr := by
          simp only [adjDiff]
          omega
        simp [hback]

/-- Witness for the amended claim C10 at reserve_size 1, page_size 8,
alignment 16, raw 65536: diff = 16 is a multiple of 8 in [8, 16], the
adjustment word [65544, 65552) lies inside the slack [65536, 65552), the
construct and map windows stay inside [65536, 65560), and destruct releases
exactly the padded span of 24 bytes at 65536. -/
theorem overaligned_adjustment_bounds_witness :
    WORDB ≤ 8 ∧ (65536 : Nat) % 8 = 0 ∧
      (construct osA m0 1 8 16).1 = some (c10Alloc, c10Machine) ∧
      (8 ∣ (c10Alloc.base - 65536) ∧ 8 ≤ c10Alloc.base - 65536 ∧
        c10Alloc.base - 65536 ≤ 16) ∧
      (65536 ≤ c10Alloc.base - WORDB ∧
        c10Alloc.base ≤ 65536 + (c10Alloc.base - 65536)) ∧
      (65536 ≤ 65536 ∧ 65536 + 16 ≤ 65536 + (Detail.align_to 1 8 + 16)) ∧
      (65536 ≤ 65552 ∧ 65552 + 8 ≤ 65536 + (Detail.align_to 1 8 + 16)) ∧
      (destruct osA c10Machine c10Alloc).2 = [Prim.release 65536 24 true] :=
  ⟨by decide, by decide, rfl,
   (overaligned_adjustment_bounds osA m0 1 8 16 3 4 rfl rfl (by omega) (by decide)
      (by decide) (by decide) (by decide) 65536 (by decide) (by decide) (by decide)
      (c10Alloc, c10Machine) rfl).1,
   (overaligned_adjustment_bounds osA m0 1 8 16 3 4 rfl rfl (by omega) (by decide)
      (by decide) (by decide) (by decide) 65536 (by decide) (by decide) (by decide)
      (c10Alloc, c10Machine) rfl).2.1,
   (overaligned_adjustment_bounds osA m0 1 8 16 3 4 rfl rfl (by omega) (by decide)
      (by decide) (by decide) (by decide) 65536 (by decide) (by decide) (by decide)
      (c10Alloc, c10Machine) rfl).2.2.1 65536 16 Access.ReadWrite true (by decide),
   ((overaligned_adjustment_bounds osA m0 1 8 16 3 4 rfl rfl (by omega) (by decide)
      (by decide) (by decide) (by decide) 65536 (by decide) (by decide) (by decide)
      (c10Alloc, c10Machine) rfl).2.2.2.1 m0 1 (by decide) (by decide)).1
      65552 8 Access.ReadWrite true (by decide),
   (overaligned_adjustment_bounds osA m0 1 8 16 3 4 rfl rfl (by omega) (by decide)
      (by decide) (by decide) (by decide) 65536 (by decide) (by decide) (by decide)
      (c10Alloc, c10Machine) rfl).2.2.2.2⟩
